import Mathlib

/-!
Shallow embedding of the numerical-methods core of the repository
(`src/models.js` and `src/controller.js`).

JavaScript numbers are embedded as rationals (`ℚ`): all operations the
code performs on them (field arithmetic and order comparisons) are exact
here.  Points `{x, y}` become a two-field structure; a JavaScript function
that can also return the empty object `{}` is embedded with an `Option`
codomain (`none` = the empty object); a function that can throw is embedded
with an `Except` codomain.
-/

/-- Wrapper for a point with x-y coordinates (`point` in `src/models.js`). -/
structure Point where
  x : ℚ
  y : ℚ
deriving DecidableEq, Repr

/-- Configuration of numerical methods (`Config` in `src/models.js`):
`{x0, y0, X, h}`. -/
structure Config where
  x0 : ℚ
  y0 : ℚ
  X : ℚ
  h : ℚ
deriving DecidableEq, Repr

/-- `DifferentialFunction`: a pair of an exact solution and a derivative
expression (`src/models.js`). -/
structure DifferentialFunction where
  _actual : ℚ → ℚ
  _df : ℚ → ℚ → ℚ

/-- `DifferentialFunction.exact(x)`: checks `arguments.length !== 1` and
throws otherwise; the argument list is embedded explicitly so the arity
check is visible. -/
def DifferentialFunction.exact (f : DifferentialFunction) (args : List ℚ) : Except String ℚ :=
  match args with
  | [x] => .ok (f._actual x)
  | _ => .error "f is a function of x only!"

/-- `DifferentialFunction.derivative(x, y)`: checks `arguments.length !== 2`
and throws otherwise. -/
def DifferentialFunction.derivative (f : DifferentialFunction) (args : List ℚ) :
    Except String ℚ :=
  match args with
  | [x, y] => .ok (f._df x y)
  | _ => .error "f prime is in terms of x and y"

/-- `Euler.step` from `src/models.js`:
`{ y: y + h * this.df(x, y), x: x + h }`. -/
def Euler.step (df : ℚ → ℚ → ℚ) (x y h : ℚ) : Point :=
  { y := y + h * df x y
    x := x + h }

/-- `ImprovedEuler.step` from `src/models.js`. -/
def ImprovedEuler.step (df : ℚ → ℚ → ℚ) (x y h : ℚ) : Point :=
  let k1 := df x y
  let k2 := df (x + h) (y + h * k1)
  { y := y + (h / 2) * (k1 + k2)
    x := x + h }

/-- `RungeKutta.step` from `src/models.js`. -/
def RungeKutta.step (df : ℚ → ℚ → ℚ) (x y h : ℚ) : Point :=
  let k1 := h * df x y
  let k2 := h * df (x + h / 2) (y + k1 / 2)
  let k3 := h * df (x + h / 2) (y + k2 / 2)
  let k4 := h * df (x + h) (y + k3)
  { y := y + (1 / 6) * (k1 + 2 * k2 + 2 * k3 + k4)
    x := x + h }

/-- The `while (x0 <= X) { data.push({x: x0, y: y0}); ({x: x0, y: y0} = this.step(x0, y0, h)); }`
loop of `NumericalMethod.__call__` (`src/models.js`).  Termination needs
`0 < h` together with the fact (true of every step method in the source)
that one step moves `x` to exactly `x + h`; both are proof parameters. -/
def integLoop (step : ℚ → ℚ → ℚ → Point) (X h : ℚ) (hh : 0 < h)
    (hstep : ∀ x y, (step x y h).x = x + h) (x0 y0 : ℚ) : List Point :=
  if x0 ≤ X then
    ⟨x0, y0⟩ :: integLoop step X h hh hstep (step x0 y0 h).x (step x0 y0 h).y
  else []
termination_by (⌊(X - x0) / h⌋ + 1).toNat
decreasing_by
  rw [hstep]
  have hq : (0 : ℚ) ≤ (X - x0) / h := div_nonneg (by linarith) (le_of_lt hh)
  have h0 : (0 : ℤ) ≤ ⌊(X - x0) / h⌋ := Int.floor_nonneg.mpr hq
  have he : X - (x0 + h) = X - x0 - h := by ring
  have he2 : (X - x0 - h) / h = (X - x0) / h - 1 := by
    rw [sub_div, div_self (ne_of_gt hh)]
  rw [he, he2, Int.floor_sub_one]
  omega

/-- `NumericalMethod.__call__` from `src/models.js`: short-circuits `h == 0`
to the empty trajectory, otherwise runs the integration loop.  When `h < 0`
and `x0 ≤ X` the JavaScript loop never terminates; that case is embedded as
`none`. -/
def NumericalMethod.call (step : ℚ → ℚ → ℚ → Point)
    (hstep : ∀ x y h, (step x y h).x = x + h) (cfg : Config) : Option (List Point) :=
  if cfg.h = 0 then some []
  else if hh : 0 < cfg.h then
    some (integLoop step cfg.X cfg.h hh (fun x y => hstep x y cfg.h) cfg.x0 cfg.y0)
  else if cfg.X < cfg.x0 then some []
  else none

/-- The three concrete numerical methods of `src/models.js`. -/
inductive Method where
  | euler
  | improvedEuler
  | rungeKutta
deriving DecidableEq, Repr

/-- Selects the `step` override of each `NumericalMethod` subclass. -/
def Method.step : Method → (ℚ → ℚ → ℚ) → ℚ → ℚ → ℚ → Point
  | .euler => Euler.step
  | .improvedEuler => ImprovedEuler.step
  | .rungeKutta => RungeKutta.step

/-- Invoking a method instance (`euler()`, `improvedEuler()`, `rungeKutta()`):
`NumericalMethod.call` at the subclass's `step`. -/
def Method.call (m : Method) (df : ℚ → ℚ → ℚ) (cfg : Config) : Option (List Point) :=
  NumericalMethod.call (m.step df) (fun x y h => by cases m <;> rfl) cfg

/-- `SolutionGraph.buildChart` domain:
`Array.from({length: N}, (_, i) => i * config.h + config.x0)`. -/
def SolutionGraph.domain (cfg : Config) (N : ℕ) : List ℚ :=
  (List.range N).map fun (i : ℕ) => (i : ℚ) * cfg.h + cfg.x0

/-- `SolutionGraph.buildChart` exact data:
`this.domain.map(x => ({x, y: this.funcs.exact(x)}))`. -/
def SolutionGraph.exactData (exactFn : ℚ → ℚ) (cfg : Config) (N : ℕ) : List Point :=
  (SolutionGraph.domain cfg N).map fun x => ⟨x, exactFn x⟩

/-- The `diff` closure of `GlobalError.buildChart` (`src/controller.js`) applied
to the dataset the method call produced for `h = (X - x0) / N`:
`{ x: N, y: this.funcs.exact(config.X) - dataset[N - 1].y }`.
`none` stands for the method call diverging or the index being out of range
(where the JavaScript would fail). -/
def GlobalError.dataEntry (m : Method) (df : ℚ → ℚ → ℚ) (exactFn : ℚ → ℚ)
    (cfg : Config) (N : ℕ) : Option Point :=
  let hN := (cfg.X - cfg.x0) / (N : ℚ)
  (Method.call m df { cfg with h := hN }).bind fun dataset =>
    (dataset[N - 1]?).map fun p => ⟨(N : ℚ), exactFn cfg.X - p.y⟩

/-- One method's series in `GlobalError.buildChart`: the `domain.forEach`
over `N = 1 .. config.N` pushing `diff(method({h}))`. -/
def GlobalError.buildData (m : Method) (df : ℚ → ℚ → ℚ) (exactFn : ℚ → ℚ)
    (cfg : Config) (Nmax : ℕ) : List (Option Point) :=
  (List.range Nmax).map fun i => GlobalError.dataEntry m df exactFn cfg (i + 1)

/-- The `diff` closure of `LocalError.buildChart` (`src/controller.js`).
Returns `some ⟨0, 0⟩` at index 0, `none` (the empty object `{}`) once the
index reaches the exact series' length, and otherwise the difference of
consecutive per-point global errors.  The element reads use a default that
is never reached in the chart's call pattern (the guards keep every index
in bounds there). -/
def LocalError.diff (exact : List Point) (item : Point) (index : ℕ)
    (arr : List Point) : Option Point :=
  if index = 0 then some ⟨0, 0⟩
  else if exact.length ≤ index then none
  else
    let curGlobal := (exact.getD index ⟨0, 0⟩).y - item.y
    let prevGlobal := (exact.getD (index - 1) ⟨0, 0⟩).y - (arr.getD (index - 1) ⟨0, 0⟩).y
    some ⟨item.x, curGlobal - prevGlobal⟩

/-- One method's series in `LocalError.buildChart`: `arr.map(diff)` with the
exact series captured from the event payload. -/
def LocalError.buildData (exact : List Point) (arr : List Point) : List (Option Point) :=
  arr.mapIdx fun index item => LocalError.diff exact item index arr

/-! ## Helper lemmas about the integration loop -/

theorem integLoop_of_le (step : ℚ → ℚ → ℚ → Point) (X h : ℚ) (hh : 0 < h)
    (hstep : ∀ x y, (step x y h).x = x + h) (x0 y0 : ℚ) (hx : x0 ≤ X) :
    integLoop step X h hh hstep x0 y0 =
      ⟨x0, y0⟩ :: integLoop step X h hh hstep (step x0 y0 h).x (step x0 y0 h).y := by
  rw [integLoop]
  exact if_pos hx

theorem integLoop_of_gt (step : ℚ → ℚ → ℚ → Point) (X h : ℚ) (hh : 0 < h)
    (hstep : ∀ x y, (step x y h).x = x + h) (x0 y0 : ℚ) (hx : ¬ x0 ≤ X) :
    integLoop step X h hh hstep x0 y0 = [] := by
  rw [integLoop]
  exact if_neg hx

/-- The loop pushes one point for each multiple of `h` that keeps
`x0 + k * h` within the domain: `⌊(X - x0) / h⌋ + 1` points in total. -/
theorem integLoop_length (step : ℚ → ℚ → ℚ → Point) (X h : ℚ) (hh : 0 < h)
    (hstep : ∀ x y, (step x y h).x = x + h) :
    ∀ (n : ℕ) (x0 y0 : ℚ), x0 ≤ X → (⌊(X - x0) / h⌋).toNat = n →
      (integLoop step X h hh hstep x0 y0).length = n + 1 := by
  intro n
  induction n with
  | zero =>
    intro x0 y0 hx hn
    have hlt : X < x0 + h := by
      by_contra hcon
      push_neg at hcon
      have h1 : (1 : ℚ) ≤ (X - x0) / h := (one_le_div hh).mpr (by linarith)
      have h2 : (1 : ℤ) ≤ ⌊(X - x0) / h⌋ := by
        rw [Int.le_floor]
        exact_mod_cast h1
      omega
    rw [integLoop_of_le step X h hh hstep x0 y0 hx, hstep,
      integLoop_of_gt step X h hh hstep _ _ (by linarith)]
    rfl
  | succ n ih =>
    intro x0 y0 hx hn
    have h2 : (1 : ℤ) ≤ ⌊(X - x0) / h⌋ := by omega
    have h1 : (1 : ℚ) ≤ (X - x0) / h := by
      have := Int.le_floor.mp h2
      exact_mod_cast this
    have hxh : x0 + h ≤ X := by
      have := (one_le_div hh).mp h1
      linarith
    have hfl : (⌊(X - (x0 + h)) / h⌋).toNat = n := by
      have he : X - (x0 + h) = X - x0 - h := by ring
      have he2 : (X - x0 - h) / h = (X - x0) / h - 1 := by
        rw [sub_div, div_self (ne_of_gt hh)]
      rw [he, he2, Int.floor_sub_one]
      omega
    rw [integLoop_of_le step X h hh hstep x0 y0 hx, hstep, List.length_cons,
      ih (x0 + h) _ hxh hfl]

/-- A run that starts inside the domain records at least one point. -/
theorem integLoop_ne_nil (step : ℚ → ℚ → ℚ → Point) (X h : ℚ) (hh : 0 < h)
    (hstep : ∀ x y, (step x y h).x = x + h) (x0 y0 : ℚ) (hx : x0 ≤ X) :
    integLoop step X h hh hstep x0 y0 ≠ [] := by
  rw [integLoop_of_le step X h hh hstep x0 y0 hx]
  exact List.cons_ne_nil _ _

theorem getLast?_cons_of_ne_nil {α : Type} (a : α) {l : List α} (hne : l ≠ []) :
    (a :: l).getLast? = l.getLast? := by
  cases l with
  | nil => exact absurd rfl hne
  | cons b t => exact List.getLast?_cons_cons

/-- The loop's last recorded point lies in the half-open window
`(X - h, X]`: every recorded point satisfies `x ≤ X` (points are pushed
before stepping), and one more step from the last point would leave the
domain. -/
theorem integLoop_getLast (step : ℚ → ℚ → ℚ → Point) (X h : ℚ) (hh : 0 < h)
    (hstep : ∀ x y, (step x y h).x = x + h) :
    ∀ (n : ℕ) (x0 y0 : ℚ), x0 ≤ X → (⌊(X - x0) / h⌋).toNat = n →
      ∃ p, (integLoop step X h hh hstep x0 y0).getLast? = some p ∧
        X - h < p.x ∧ p.x ≤ X := by
  intro n
  induction n with
  | zero =>
    intro x0 y0 hx hn
    have hlt : X < x0 + h := by
      by_contra hcon
      push_neg at hcon
      have h1 : (1 : ℚ) ≤ (X - x0) / h := (one_le_div hh).mpr (by linarith)
      have h2 : (1 : ℤ) ≤ ⌊(X - x0) / h⌋ := by
        rw [Int.le_floor]
        exact_mod_cast h1
      omega
    refine ⟨⟨x0, y0⟩, ?_, by linarith, hx⟩
    rw [integLoop_of_le step X h hh hstep x0 y0 hx, hstep,
      integLoop_of_gt step X h hh hstep _ _ (by linarith)]
    rfl
  | succ n ih =>
    intro x0 y0 hx hn
    have h2 : (1 : ℤ) ≤ ⌊(X - x0) / h⌋ := by omega
    have h1 : (1 : ℚ) ≤ (X - x0) / h := by
      have := Int.le_floor.mp h2
      exact_mod_cast this
    have hxh : x0 + h ≤ X := by
      have := (one_le_div hh).mp h1
      linarith
    have hfl : (⌊(X - (x0 + h)) / h⌋).toNat = n := by
      have he : X - (x0 + h) = X - x0 - h := by ring
      have he2 : (X - x0 - h) / h = (X - x0) / h - 1 := by
        rw [sub_div, div_self (ne_of_gt hh)]
      rw [he, he2, Int.floor_sub_one]
      omega
    obtain ⟨p, hp, hp1, hp2⟩ := ih (x0 + h) ((step x0 y0 h).y) hxh hfl
    refine ⟨p, ?_, hp1, hp2⟩
    rw [integLoop_of_le step X h hh hstep x0 y0 hx, hstep,
      getLast?_cons_of_ne_nil _ (integLoop_ne_nil step X h hh hstep _ _ hxh)]
    exact hp

/-! ## Claims -/

/-- C4: with `derivative(x, y) = 1 + 2y/x`, `x0 = 1`, `y0 = 2`, `h = 0.1` and
any `X ≥ 1.1`, the Euler trajectory starts with `(1, 2)` and its second
element is `(1.1, 2.5)`. -/
theorem claim_C4 (X : ℚ) (hX : 11/10 ≤ X) :
    (Method.call .euler (fun x y => 1 + 2 * y / x) ⟨1, 2, X, 1/10⟩).map
        (fun l => (l[0]?, l[1]?)) =
      some (some ⟨1, 2⟩, some ⟨11/10, 5/2⟩) := by
  have h1 : (1 : ℚ) ≤ X := by linarith
  norm_num [Method.call, NumericalMethod.call, integLoop_of_le, integLoop_of_gt,
    Method.step, Euler.step, h1, hX]

/-- C4 witness at `X = 2`. -/
theorem claim_C4_witness :
    (11 : ℚ)/10 ≤ 2 ∧
    (Method.call .euler (fun x y => 1 + 2 * y / x) ⟨1, 2, 2, 1/10⟩).map
        (fun l => (l[0]?, l[1]?)) =
      some (some ⟨1, 2⟩, some ⟨11/10, 5/2⟩) :=
  ⟨by norm_num, claim_C4 2 (by norm_num)⟩

/-- C5: whenever the configured step `h` equals 0, the integrator
short-circuits to `some []` — the empty trajectory, not divergence and not
an error — for every method, derivative and remaining configuration. -/
theorem claim_C5 (m : Method) (df : ℚ → ℚ → ℚ) (cfg : Config) (h0 : cfg.h = 0) :
    Method.call m df cfg = some [] := by
  rw [Method.call, NumericalMethod.call, if_pos h0]

/-- C5 witness at `h = 0`, `x0 = 1`, `y0 = 2`, `X = 10`. -/
theorem claim_C5_witness :
    (Config.mk 1 2 10 0).h = 0 ∧
    Method.call .euler (fun x y => 1 + 2 * y / x) ⟨1, 2, 10, 0⟩ = some [] :=
  ⟨rfl, claim_C5 .euler (fun x y => 1 + 2 * y / x) ⟨1, 2, 10, 0⟩ rfl⟩

/-- C6: the Runge-Kutta step returns `x' = x + h` and
`y' = y + (1/6)(k1 + 2 k2 + 2 k3 + k4)` with the four classical stages,
the previous `y` appearing as a summand of the new `y`. -/
theorem claim_C6 (df : ℚ → ℚ → ℚ) (x y h : ℚ) :
    RungeKutta.step df x y h =
      (let k1 := h * df x y
       let k2 := h * df (x + h / 2) (y + k1 / 2)
       let k3 := h * df (x + h / 2) (y + k2 / 2)
       let k4 := h * df (x + h) (y + k3)
       ⟨x + h, y + (1 / 6) * (k1 + 2 * k2 + 2 * k3 + k4)⟩) := rfl

/-- C7: with `0 < h` and a step that advances `x` by exactly `h` (true of
all three methods), the integration loop terminates: the call is a total
function returning some finite trajectory. -/
theorem claim_C7 (step : ℚ → ℚ → ℚ → Point)
    (hstep : ∀ x y h, (step x y h).x = x + h) (cfg : Config) (hh : 0 < cfg.h) :
    ∃ traj : List Point, NumericalMethod.call step hstep cfg = some traj := by
  rw [NumericalMethod.call, if_neg hh.ne', dif_pos hh]
  exact ⟨_, rfl⟩

/-- C7 witness: Euler with a constant derivative on `[0, 1]`, `h = 1`. -/
theorem claim_C7_witness :
    (0 : ℚ) < (Config.mk 0 0 1 1).h ∧
    ∃ traj, NumericalMethod.call (Euler.step fun _ _ => 0) (fun x y h => rfl)
      ⟨0, 0, 1, 1⟩ = some traj :=
  ⟨by norm_num, claim_C7 (Euler.step fun _ _ => 0) (fun x y h => rfl)
    ⟨0, 0, 1, 1⟩ (by norm_num)⟩

/-- C8: the embedded integrator is a pure function of the method, the
derivative and the configuration: a repeated invocation returns the same
trajectory, and pointwise-equal derivatives give equal trajectories (there
is no hidden state a first run could leave behind). -/
theorem claim_C8 (m : Method) (df df2 : ℚ → ℚ → ℚ) (cfg : Config)
    (hdf : ∀ x y, df x y = df2 x y) :
    Method.call m df cfg = Method.call m df cfg ∧
    Method.call m df cfg = Method.call m df2 cfg := by
  have hfun : df = df2 := funext fun x => funext fun y => hdf x y
  subst hfun
  exact ⟨rfl, rfl⟩

/-- C8 witness with Runge-Kutta on a concrete configuration. -/
theorem claim_C8_witness :
    Method.call .rungeKutta (fun x y => x + y) ⟨0, 1, 1, 1/2⟩ =
      Method.call .rungeKutta (fun x y => x + y) ⟨0, 1, 1, 1/2⟩ ∧
    Method.call .rungeKutta (fun x y => x + y) ⟨0, 1, 1, 1/2⟩ =
      Method.call .rungeKutta (fun x y => x + y) ⟨0, 1, 1, 1/2⟩ :=
  claim_C8 .rungeKutta (fun x y => x + y) (fun x y => x + y) ⟨0, 1, 1, 1/2⟩
    (fun x y => rfl)

/-- C9: `DifferentialFunction.exact` applied to a single argument delegates
to the stored solution and throws on any other arity;
`DifferentialFunction.derivative` applied to two arguments delegates to the
stored derivative and throws on any other arity. -/
theorem claim_C9 (f : DifferentialFunction) (x y : ℚ) (args args2 : List ℚ)
    (h1 : args.length ≠ 1) (h2 : args2.length ≠ 2) :
    f.exact [x] = .ok (f._actual x) ∧
    f.exact args = .error "f is a function of x only!" ∧
    f.derivative [x, y] = .ok (f._df x y) ∧
    f.derivative args2 = .error "f prime is in terms of x and y" := by
  refine ⟨rfl, ?_, rfl, ?_⟩
  · match args with
    | [] => rfl
    | [a] => simp at h1
    | a :: b :: t => rfl
  · match args2 with
    | [] => rfl
    | [a] => rfl
    | [a, b] => simp at h2
    | a :: b :: c :: t => rfl

/-- C9 witness on a concrete function pair, with a zero-argument call for
`exact` and a one-argument call for `derivative`. -/
theorem claim_C9_witness :
    ([] : List ℚ).length ≠ 1 ∧ [(3 : ℚ)].length ≠ 2 ∧
    ((DifferentialFunction.mk (fun u => u) (fun u v => u + v)).exact [1] =
        .ok ((fun u : ℚ => u) 1) ∧
      (DifferentialFunction.mk (fun u => u) (fun u v => u + v)).exact [] =
        .error "f is a function of x only!" ∧
      (DifferentialFunction.mk (fun u => u) (fun u v => u + v)).derivative [1, 2] =
        .ok ((fun u v : ℚ => u + v) 1 2) ∧
      (DifferentialFunction.mk (fun u => u) (fun u v => u + v)).derivative [3] =
        .error "f prime is in terms of x and y") :=
  ⟨by decide, by decide,
    claim_C9 (DifferentialFunction.mk (fun u => u) (fun u v => u + v)) 1 2 [] [3]
      (by decide) (by decide)⟩

/-- C2 (amended): with `h > 0` and `x0 ≤ X` the trajectory is non-empty, and
its last point's `x` satisfies `X - h < x ≤ X`: the loop pushes a point
before stepping, so the final recorded point never passes `X` but lies
within one step of it.  (The claim's `x ≥ X` fails; see the
counterexample.) -/
theorem claim_C2_amended (step : ℚ → ℚ → ℚ → Point)
    (hstep : ∀ x y h, (step x y h).x = x + h) (cfg : Config)
    (hh : 0 < cfg.h) (hx : cfg.x0 ≤ cfg.X) :
    ∃ traj p, NumericalMethod.call step hstep cfg = some traj ∧ traj ≠ [] ∧
      traj.getLast? = some p ∧ cfg.X - cfg.h < p.x ∧ p.x ≤ cfg.X := by
  rw [NumericalMethod.call, if_neg hh.ne', dif_pos hh]
  obtain ⟨p, hp, h1, h2⟩ :=
    integLoop_getLast step cfg.X cfg.h hh (fun x y => hstep x y cfg.h) _
      cfg.x0 cfg.y0 hx rfl
  exact ⟨_, p, rfl,
    integLoop_ne_nil step cfg.X cfg.h hh (fun x y => hstep x y cfg.h) cfg.x0 cfg.y0 hx,
    hp, h1, h2⟩

/-- C2 witness: Euler, `df = 0`, on `[0, 1]` with `h = 1/2`. -/
theorem claim_C2_amended_witness :
    (0 : ℚ) < (Config.mk 0 0 1 (1/2)).h ∧
    (Config.mk 0 0 1 (1/2)).x0 ≤ (Config.mk 0 0 1 (1/2)).X ∧
    ∃ traj p, NumericalMethod.call (Euler.step fun _ _ => 0) (fun x y h => rfl)
        ⟨0, 0, 1, 1/2⟩ = some traj ∧ traj ≠ [] ∧
      traj.getLast? = some p ∧
      (Config.mk 0 0 1 (1/2)).X - (Config.mk 0 0 1 (1/2)).h < p.x ∧
      p.x ≤ (Config.mk 0 0 1 (1/2)).X :=
  ⟨by norm_num, by norm_num,
    claim_C2_amended (Euler.step fun _ _ => 0) (fun x y h => rfl)
      ⟨0, 0, 1, 1/2⟩ (by norm_num) (by norm_num)⟩

/-- C2 counterexample: with `x0 = 0`, `X = 1`, `h = 2` (so `h > 0`,
`x0 ≤ X`) and a zero derivative, the Euler trajectory is the single point
`(0, 0)`; its last point has `x = 0`, which is NOT `≥ X = 1` as the claim
states. -/
theorem claim_C2_cex :
    Method.call .euler (fun _ _ => 0) ⟨0, 0, 1, 2⟩ = some [⟨0, 0⟩] ∧
    ([(⟨0, 0⟩ : Point)].getLast? = some ⟨0, 0⟩) ∧
    ¬ ((1 : ℚ) ≤ (Point.mk 0 0).x) := by
  refine ⟨?_, by decide, by norm_num⟩
  norm_num [Method.call, NumericalMethod.call, integLoop_of_le, integLoop_of_gt,
    Method.step, Euler.step]

/-- Unfolds a method call with a positive step to the integration loop. -/
theorem Method.call_of_pos (m : Method) (df : ℚ → ℚ → ℚ) (cfg : Config)
    (hh : 0 < cfg.h) :
    Method.call m df cfg =
      some (integLoop (m.step df) cfg.X cfg.h hh
        (fun x y => by cases m <;> rfl) cfg.x0 cfg.y0) := by
  rw [Method.call, NumericalMethod.call, if_neg hh.ne', dif_pos hh]

theorem floor_div_div (a : ℚ) (N : ℕ) (ha : 0 < a) (hN : 1 ≤ N) :
    (⌊a / (a / (N : ℚ))⌋).toNat = N := by
  have hNQ : ((N : ℚ)) ≠ 0 := Nat.cast_ne_zero.mpr (by omega)
  have hq : a / (a / (N : ℚ)) = (N : ℚ) := by
    field_simp
  rw [hq, Int.floor_natCast]
  exact Int.toNat_natCast N

/-- With `h = (X - x0) / N`, `N ≥ 1` and `X > x0`, a method call returns a
trajectory of exactly `N + 1` points: `x0 + N * h = X` lands exactly on the
boundary, so the point at `X` is still pushed before the loop exits. -/
theorem method_call_N (m : Method) (df : ℚ → ℚ → ℚ) (cfg : Config) (N : ℕ)
    (hN : 1 ≤ N) (hx : cfg.x0 < cfg.X) (hcfg : cfg.h = (cfg.X - cfg.x0) / (N : ℚ)) :
    ∃ traj, Method.call m df cfg = some traj ∧ traj.length = N + 1 := by
  have hNQ : (0 : ℚ) < (N : ℚ) := by exact_mod_cast (by omega : 0 < N)
  have hh : 0 < cfg.h := by
    rw [hcfg]
    exact div_pos (by linarith) hNQ
  refine ⟨_, Method.call_of_pos m df cfg hh, ?_⟩
  refine integLoop_length (m.step df) cfg.X cfg.h hh _ N cfg.x0 cfg.y0 (le_of_lt hx) ?_
  rw [hcfg]
  exact floor_div_div (cfg.X - cfg.x0) N (by linarith) hN

/-- C1 (amended): the global-error entry at `N` equals `exactFn(X)` minus
the y-coordinate of the point at index `N - 1` of the trajectory built with
`h = (X - x0) / N` — but that trajectory has `N + 1` points, so index
`N - 1` is its second-to-last point (the one at `x = X - h`), not its last
point as the claim states (see the counterexample). -/
theorem claim_C1_amended (m : Method) (df : ℚ → ℚ → ℚ) (exactFn : ℚ → ℚ)
    (cfg : Config) (N : ℕ) (hN : 1 ≤ N) (hx : cfg.x0 < cfg.X) :
    ∃ traj, Method.call m df { cfg with h := (cfg.X - cfg.x0) / (N : ℚ) } = some traj ∧
      traj.length = N + 1 ∧
      GlobalError.dataEntry m df exactFn cfg N =
        some ⟨(N : ℚ), exactFn cfg.X - (traj.getD (N - 1) ⟨0, 0⟩).y⟩ := by
  obtain ⟨traj, hcall, hlen⟩ :=
    method_call_N m df { cfg with h := (cfg.X - cfg.x0) / (N : ℚ) } N hN hx rfl
  refine ⟨traj, hcall, hlen, ?_⟩
  rw [GlobalError.dataEntry]
  have hb : N - 1 < traj.length := by omega
  simp only [hcall, Option.some_bind, List.getElem?_eq_getElem hb, Option.map_some]
  rw [List.getD_eq_getElem?_getD, List.getElem?_eq_getElem hb]
  rfl

/-- C1 counterexample: derivative constantly 1, exact solution constantly 0,
`x0 = 0`, `X = 1`, `N = 1` (so `h = 1`).  The trajectory is
`[(0,0), (1,1)]`, whose last point is `(1, 1)`; the code's entry reads index
`N - 1 = 0` and yields `(1, 0 - 0) = (1, 0)`, while the claim's
`exactFn(X) - last.y = 0 - 1` would give `(1, -1)`. -/
theorem claim_C1_cex :
    GlobalError.dataEntry .euler (fun _ _ => 1) (fun _ => 0) ⟨0, 0, 1, 0⟩ 1 =
      some ⟨1, 0⟩ ∧
    (Method.call .euler (fun _ _ => 1) ⟨0, 0, 1, 1⟩).map (fun l => l.getLast?) =
      some (some ⟨1, 1⟩) ∧
    GlobalError.dataEntry .euler (fun _ _ => 1) (fun _ => 0) ⟨0, 0, 1, 0⟩ 1 ≠
      some ⟨1, (fun _ : ℚ => (0 : ℚ)) 1 - (Point.mk 1 1).y⟩ := by
  refine ⟨?_, ?_, ?_⟩
  · norm_num [GlobalError.dataEntry, Method.call, NumericalMethod.call,
      integLoop_of_le, integLoop_of_gt, Method.step, Euler.step]
  · norm_num [Method.call, NumericalMethod.call,
      integLoop_of_le, integLoop_of_gt, Method.step, Euler.step]
  · norm_num [GlobalError.dataEntry, Method.call, NumericalMethod.call,
      integLoop_of_le, integLoop_of_gt, Method.step, Euler.step, Point.mk.injEq]

/-- C1 witness at the counterexample's configuration. -/
theorem claim_C1_amended_witness :
    (1 ≤ 1) ∧ ((Config.mk 0 0 1 0).x0 < (Config.mk 0 0 1 0).X) ∧
    ∃ traj,
      Method.call .euler (fun _ _ => 1)
          { Config.mk 0 0 1 0 with
            h := ((Config.mk 0 0 1 0).X - (Config.mk 0 0 1 0).x0) / ((1 : ℕ) : ℚ) } =
        some traj ∧
      traj.length = 1 + 1 ∧
      GlobalError.dataEntry .euler (fun _ _ => 1) (fun _ => 0) (Config.mk 0 0 1 0) 1 =
        some ⟨((1 : ℕ) : ℚ),
          (fun _ => (0 : ℚ)) (Config.mk 0 0 1 0).X - (traj.getD (1 - 1) ⟨0, 0⟩).y⟩ :=
  ⟨le_refl 1, by norm_num,
    claim_C1_amended .euler (fun _ _ => 1) (fun _ => 0) (Config.mk 0 0 1 0) 1
      (le_refl 1) (by norm_num)⟩

/-- Element `i` of a local-error series, for `i` within the trajectory. -/
theorem buildData_getElem (exact arr : List Point) (i : ℕ) (hb : i < arr.length) :
    (LocalError.buildData exact arr)[i]? =
      some (LocalError.diff exact arr[i] i arr) := by
  rw [LocalError.buildData, List.getElem?_mapIdx, List.getElem?_eq_getElem hb]
  rfl

/-- C3 (amended): for a trajectory and an exact-solution series of the same
length, the local-error series starts with `(0, 0)` — the x-coordinate is
the literal constant 0, not the trajectory's starting `x0` as the claim
states (see the counterexample) — and for every index `0 < i` within the
series, entry `i` is the difference between the per-point global errors at
`x_i` and at `x_{i-1}`. -/
theorem claim_C3_amended (exact arr : List Point)
    (hlen : exact.length = arr.length) (hne : arr ≠ []) :
    (LocalError.buildData exact arr)[0]? = some (some ⟨0, 0⟩) ∧
    ∀ i, 0 < i → i < arr.length →
      ∃ item e ep ap, arr[i]? = some item ∧ exact[i]? = some e ∧
        exact[i - 1]? = some ep ∧ arr[i - 1]? = some ap ∧
        (LocalError.buildData exact arr)[i]? =
          some (some ⟨item.x, (e.y - item.y) - (ep.y - ap.y)⟩) := by
  constructor
  · have h0 : 0 < arr.length := List.length_pos.mpr hne
    rw [buildData_getElem exact arr 0 h0, LocalError.diff, if_pos rfl]
  · intro i hi hib
    have hie : i < exact.length := by omega
    have hpe : i - 1 < exact.length := by omega
    have hpa : i - 1 < arr.length := by omega
    refine ⟨arr[i], exact[i], exact[i - 1], arr[i - 1],
      List.getElem?_eq_getElem hib, List.getElem?_eq_getElem hie,
      List.getElem?_eq_getElem hpe, List.getElem?_eq_getElem hpa, ?_⟩
    rw [buildData_getElem exact arr i hib, LocalError.diff,
      if_neg (by omega), if_neg (by omega)]
    simp only [List.getD_eq_getElem?_getD, List.getElem?_eq_getElem hie,
      List.getElem?_eq_getElem hpe, List.getElem?_eq_getElem hpa]
    rfl

/-- C3 witness on a two-point trajectory starting at `x0 = 1`. -/
theorem claim_C3_amended_witness :
    ([(⟨1, 5⟩ : Point), ⟨3/2, 7⟩].length = [(⟨1, 2⟩ : Point), ⟨3/2, 3⟩].length) ∧
    ([(⟨1, 2⟩ : Point), ⟨3/2, 3⟩] ≠ []) ∧
    ((LocalError.buildData [⟨1, 5⟩, ⟨3/2, 7⟩] [⟨1, 2⟩, ⟨3/2, 3⟩])[0]? =
        some (some ⟨0, 0⟩) ∧
      ∀ i, 0 < i → i < [(⟨1, 2⟩ : Point), ⟨3/2, 3⟩].length →
        ∃ item e ep ap, [(⟨1, 2⟩ : Point), ⟨3/2, 3⟩][i]? = some item ∧
          [(⟨1, 5⟩ : Point), ⟨3/2, 7⟩][i]? = some e ∧
          [(⟨1, 5⟩ : Point), ⟨3/2, 7⟩][i - 1]? = some ep ∧
          [(⟨1, 2⟩ : Point), ⟨3/2, 3⟩][i - 1]? = some ap ∧
          (LocalError.buildData [⟨1, 5⟩, ⟨3/2, 7⟩] [⟨1, 2⟩, ⟨3/2, 3⟩])[i]? =
            some (some ⟨item.x, (e.y - item.y) - (ep.y - ap.y)⟩)) :=
  ⟨by decide, by decide,
    claim_C3_amended [⟨1, 5⟩, ⟨3/2, 7⟩] [⟨1, 2⟩, ⟨3/2, 3⟩] (by decide) (by decide)⟩

/-- C3 counterexample: a trajectory starting at `x0 = 1` still gets the
first local-error entry `(0, 0)`, not `(x0, 0) = (1, 0)`: the code writes
the literal `{x: 0, y: 0}`. -/
theorem claim_C3_cex :
    (LocalError.buildData [⟨1, 5⟩, ⟨3/2, 7⟩] [⟨1, 2⟩, ⟨3/2, 3⟩])[0]? =
      some (some ⟨0, 0⟩) ∧
    (Point.mk 0 0) ≠ ⟨(Point.mk 1 2).x, 0⟩ := by
  refine ⟨?_, by decide⟩
  decide

/-- C10: in a build with `N ≥ 1` steps, `X > x0` and `h = (X - x0) / N`,
the exact series published by `SolutionGraph.buildChart` has exactly `N`
points at `x0, x0 + h, …, x0 + (N-1)h` (excluding `X`), each method
trajectory has `N + 1` points, and the local-error series therefore has
`N + 1` entries whose final entry is the empty object (`none`), produced by
the length guard in `LocalError`'s `diff` — no out-of-range access
happens, but the last local-error value is absent. -/
theorem claim_C10 (m : Method) (df : ℚ → ℚ → ℚ) (exactFn : ℚ → ℚ) (cfg : Config)
    (N : ℕ) (hN : 1 ≤ N) (hx : cfg.x0 < cfg.X)
    (hcfg : cfg.h = (cfg.X - cfg.x0) / (N : ℚ)) :
    (SolutionGraph.exactData exactFn cfg N).length = N ∧
    (∀ i, i < N → (SolutionGraph.exactData exactFn cfg N)[i]? =
      some ⟨(i : ℚ) * cfg.h + cfg.x0, exactFn ((i : ℚ) * cfg.h + cfg.x0)⟩) ∧
    ∃ traj, Method.call m df cfg = some traj ∧ traj.length = N + 1 ∧
      (LocalError.buildData (SolutionGraph.exactData exactFn cfg N) traj).length = N + 1 ∧
      (LocalError.buildData (SolutionGraph.exactData exactFn cfg N) traj).getLast? =
        some none := by
  have hlenE : (SolutionGraph.exactData exactFn cfg N).length = N := by
    simp only [SolutionGraph.exactData, SolutionGraph.domain, List.length_map,
      List.length_range]
  refine ⟨hlenE, ?_, ?_⟩
  · intro i hi
    simp only [SolutionGraph.exactData, SolutionGraph.domain, List.getElem?_map,
      List.getElem?_range, hi, if_pos]
    rfl
  · obtain ⟨traj, hcall, hlen⟩ := method_call_N m df cfg N hN hx hcfg
    have hlenB : (LocalError.buildData (SolutionGraph.exactData exactFn cfg N) traj).length
        = N + 1 := by
      rw [LocalError.buildData, List.length_mapIdx, hlen]
    refine ⟨traj, hcall, hlen, hlenB, ?_⟩
    rw [List.getLast?_eq_getElem?, hlenB]
    have hNb : N < traj.length := by omega
    rw [show N + 1 - 1 = N by omega, buildData_getElem _ traj N hNb,
      LocalError.diff, if_neg (by omega), if_pos (by omega)]

/-- C10 witness: Euler with a zero derivative on `[0, 1]`, `N = 2`,
`h = 1/2`. -/
theorem claim_C10_witness :
    (1 ≤ 2) ∧ ((Config.mk 0 0 1 (1/2)).x0 < (Config.mk 0 0 1 (1/2)).X) ∧
    ((Config.mk 0 0 1 (1/2)).h =
      ((Config.mk 0 0 1 (1/2)).X - (Config.mk 0 0 1 (1/2)).x0) / ((2 : ℕ) : ℚ)) ∧
    ((SolutionGraph.exactData (fun _ => 0) (Config.mk 0 0 1 (1/2)) 2).length = 2 ∧
      (∀ i, i < 2 → (SolutionGraph.exactData (fun _ => 0) (Config.mk 0 0 1 (1/2)) 2)[i]? =
        some ⟨(i : ℚ) * (Config.mk 0 0 1 (1/2)).h + (Config.mk 0 0 1 (1/2)).x0,
          (fun _ => (0 : ℚ)) ((i : ℚ) * (Config.mk 0 0 1 (1/2)).h + (Config.mk 0 0 1 (1/2)).x0)⟩) ∧
      ∃ traj, Method.call .euler (fun _ _ => 0) (Config.mk 0 0 1 (1/2)) = some traj ∧
        traj.length = 2 + 1 ∧
        (LocalError.buildData (SolutionGraph.exactData (fun _ => 0) (Config.mk 0 0 1 (1/2)) 2)
            traj).length = 2 + 1 ∧
        (LocalError.buildData (SolutionGraph.exactData (fun _ => 0) (Config.mk 0 0 1 (1/2)) 2)
            traj).getLast? = some none) :=
  ⟨by decide, by norm_num, by norm_num,
    claim_C10 .euler (fun _ _ => 0) (fun _ => 0) (Config.mk 0 0 1 (1/2)) 2
      (by decide) (by norm_num) (by norm_num)⟩
